import Mathlib

/-!
Verification development for the ILP circuit-distance repository
(`ilp_circuit_distance.py`).  The Python source is shallowly embedded:

* a `stim.DetectorErrorModel` becomes `DetectorErrorModel`, an ordered list
  of instructions plus the DEM's declared detector/observable totals;
* `parse_dem_errors` becomes an `Except`-valued function (the Python
  `NotImplementedError` raised on `shift_detectors` becomes `Except.error`);
* the external `mip` solver is a parameter `solve : MipModel → ModelConfig →
  SolveResult`; the integer program the code builds is captured by
  `MipModel` together with the decidable satisfaction predicate `Satisfies`,
  which transcribes exactly the variables, bounds and constraints added in
  lines 53-120 of the source;
* `mip_circuit_distance` becomes `mip_run` / `mip_circuit_distance`;
  `mip_run` additionally returns the list of external side effects the call
  performs (`Event.modelConstructed` for the `Model(...)` construction at
  line 53, `Event.optimizeCalled` for `m.optimize()` at line 126) so that
  statements about "before the model is constructed / before the solver is
  invoked" are expressible.
-/

/-- A target of a DEM `error` instruction: a relative detector id (`D`),
a logical observable id (`L`), or the `^` separator (ignored by the code,
which only checks `is_relative_detector_id` / `is_logical_observable_id`). -/
inductive DemTarget where
  | relativeDetectorId (val : Nat)
  | logicalObservableId (val : Nat)
  | separator
  deriving DecidableEq, Repr

/-- A DEM instruction: `shift_detectors`, `error` (probability plus
targets), or any other instruction kind (`detector`, `logical_observable`,
coordinate declarations, ...), identified only by its kind string since the
code ignores everything about it. -/
inductive DemInstruction where
  | shift_detectors (targets : List Nat)
  | error (probability : Rat) (targets : List DemTarget)
  | other (kind : String)
  deriving DecidableEq, Repr

/-- A detector error model: the instruction stream plus the DEM's own
declared totals (`dem.num_detectors`, `dem.num_observables`). -/
structure DetectorErrorModel where
  instructions : List DemInstruction
  num_detectors : Nat
  num_observables : Nat
  deriving DecidableEq, Repr

/-- The detector and observable index lists extracted from one `error`
instruction's targets (source lines 174-186): detectors are resolved
against the running offset, then each list is deduplicated and sorted
(`sorted(set(...))`). -/
def normalizeTargets (off : Nat) (ts : List DemTarget) : List Nat × List Nat :=
  let dets := ts.filterMap (fun t => match t with
    | .relativeDetectorId v => some (off + v)
    | _ => none)
  let obs := ts.filterMap (fun t => match t with
    | .logicalObservableId v => some v
    | _ => none)
  (List.insertionSort (· ≤ ·) dets.dedup, List.insertionSort (· ≤ ·) obs.dedup)

/-- The loop of `parse_dem_errors` (source lines 165-193): walks the
instruction stream with the running detector offset and the two
accumulators, raising on `shift_detectors` and appending one entry per
`error` instruction. -/
def parse_dem_errors_loop (off : Nat) (insts : List DemInstruction)
    (acc_d acc_o : List (List Nat)) :
    Except String (List (List Nat) × List (List Nat)) :=
  match insts with
  | [] => Except.ok (acc_d, acc_o)
  | .shift_detectors _ :: _ =>
      Except.error "DEM parsing for shift_detectors not implemented yet."
  | .error _ ts :: rest =>
      let dets_obs := normalizeTargets off ts
      parse_dem_errors_loop off rest (acc_d ++ [dets_obs.1]) (acc_o ++ [dets_obs.2])
  | .other _ :: rest => parse_dem_errors_loop off rest acc_d acc_o

/-- `parse_dem_errors` (source lines 147-198): returns
`(err_detectors, err_observables, num_detectors, num_observables)`,
the totals coming from the DEM's own declared counts. -/
def parse_dem_errors (dem : DetectorErrorModel) :
    Except String (List (List Nat) × List (List Nat) × Nat × Nat) :=
  match parse_dem_errors_loop 0 dem.instructions [] [] with
  | Except.error e => Except.error e
  | Except.ok (ed, eo) => Except.ok (ed, eo, dem.num_detectors, dem.num_observables)

/-- The targets of an `error` instruction, `none` for every other kind. -/
def errorTargets : DemInstruction → Option (List DemTarget)
  | .error _ ts => some ts
  | _ => none

/-- Whether an instruction is `shift_detectors`. -/
def isShift : DemInstruction → Bool
  | .shift_detectors _ => true
  | _ => false

/-- Two DEM instructions that are identical except possibly for the
probability attached to an `error` instruction. -/
def SameUpToProb (a b : DemInstruction) : Prop :=
  match a, b with
  | .error _ ts, .error _ ts2 => ts = ts2
  | x, y => x = y

/-- The inverted incidence maps built at source lines 42-50: for each
detector (resp. observable) index `i < n`, the list of error-mechanism
indices `j` touching it, one entry per occurrence of `i` in `lists[j]`,
in increasing `j` order — exactly the order in which the Python loop
`for j, dets: for d in dets: det_to_errors[d].append(j)` appends. -/
def invertIncidence (n : Nat) (lists : List (List Nat)) : List (List Nat) :=
  (List.range n).map (fun i =>
    lists.enum.flatMap (fun p => (p.2.filter (· == i)).map (fun _ => p.1)))

/-- The integer program assembled at source lines 52-120:
`num_errors` binary variables `x_j`, one integer slack `y_i` bounded by
`slack_ub` per detector row, one integer slack `s_r` (same bound) and one
binary parity bit `w_r` per observable row, with the parity constraints
read off `det_rows` / `obs_rows`. -/
structure MipModel where
  num_errors : Nat
  slack_ub : Nat
  det_rows : List (List Nat)
  obs_rows : List (List Nat)
  deriving DecidableEq, Repr

/-- Model construction from the parsed incidence data (source lines
37-120): `max_pairs = num_errors // 2` and the two inverted maps. -/
def build_model (ed eo : List (List Nat)) (nd no : Nat) : MipModel :=
  { num_errors := ed.length
    slack_ub := ed.length / 2
    det_rows := invertIncidence nd ed
    obs_rows := invertIncidence no eo }

/-- A valuation of all model variables: `x j`, `y i`, `s r`, `w r` read
positionally (`List.getD · 0`). -/
structure Assignment where
  x : List Nat
  y : List Nat
  s : List Nat
  w : List Nat
  deriving DecidableEq, Repr

/-- `sum_j row[j]·x_j` for a sparse constraint row: the value of
`xsum(x[j] for j in row)` under the valuation `x`. -/
def rowSum (x : List Nat) (row : List Nat) : Nat :=
  (row.map (fun j => x.getD j 0)).sum

/-- The assignment satisfies every variable bound and constraint of the
model: `x_j, w_r ∈ {0,1}`, `0 ≤ y_i, s_r ≤ slack_ub`, for each detector
row that is nonempty `Σ x_j = 2·y_i` (line 94; empty rows get no
constraint, line 99), for each observable row `Σ x_j = 2·s_r + w_r` when
nonempty and `w_r = 0` when empty (lines 105, 110), and `Σ_r w_r ≥ 1`
(line 114). -/
def Satisfies (m : MipModel) (a : Assignment) : Prop :=
  a.x.length = m.num_errors ∧
  a.y.length = m.det_rows.length ∧
  a.s.length = m.obs_rows.length ∧
  a.w.length = m.obs_rows.length ∧
  (∀ v ∈ a.x, v ≤ 1) ∧
  (∀ v ∈ a.y, v ≤ m.slack_ub) ∧
  (∀ v ∈ a.s, v ≤ m.slack_ub) ∧
  (∀ v ∈ a.w, v ≤ 1) ∧
  (∀ i < m.det_rows.length, m.det_rows.getD i [] ≠ [] →
    rowSum a.x (m.det_rows.getD i []) = 2 * a.y.getD i 0) ∧
  (∀ r < m.obs_rows.length,
    (m.obs_rows.getD r [] ≠ [] →
      rowSum a.x (m.obs_rows.getD r []) = 2 * a.s.getD r 0 + a.w.getD r 0) ∧
    (m.obs_rows.getD r [] = [] → a.w.getD r 0 = 0)) ∧
  1 ≤ a.w.sum

instance (m : MipModel) (a : Assignment) : Decidable (Satisfies m a) := by
  unfold Satisfies; infer_instance

/-- `v` is the optimal objective value (minimum of `Σ_j x_j` over
satisfying assignments) of the model. -/
def IsOptimal (m : MipModel) (v : Nat) : Prop :=
  (∃ a, Satisfies m a ∧ a.x.sum = v) ∧ ∀ a, Satisfies m a → v ≤ a.x.sum

/-- The `mip.OptimizationStatus` values. -/
inductive OptimizationStatus where
  | ERROR | OPTIMAL | INFEASIBLE | UNBOUNDED | FEASIBLE
  | INT_INFEASIBLE | NO_SOLUTION_FOUND | LOADED | CUTOFF | OTHER
  deriving DecidableEq, Repr

/-- What the code reads back from the solved model: `m.status`, the values
`x[j].x` of the binary decision variables, and `m.objective_bound`. -/
structure SolveResult where
  status : OptimizationStatus
  xvals : List Rat
  objective_bound : Rat
  deriving DecidableEq, Repr

/-- Solver configuration written before `m.optimize()`:
`max_mip_gap` and `max_seconds`; `none` means the attribute was not
assigned and the solver's own default applies (source lines 122-124 set
both only when `time_limit is not None`). -/
structure ModelConfig where
  max_mip_gap : Option Rat
  max_seconds : Option Nat
  deriving DecidableEq, Repr

/-- The configuration produced by lines 122-124 for a given `time_limit`. -/
def solverConfig (time_limit : Option Nat) : ModelConfig :=
  match time_limit with
  | some t => { max_mip_gap := some 0, max_seconds := some t }
  | none => { max_mip_gap := none, max_seconds := none }

/-- The external MIP engine delegated to (`m.optimize()` plus the
subsequent attribute reads), abstracted as a function of the constructed
model and the written configuration. -/
def Solver : Type :=
  MipModel → ModelConfig → SolveResult

/-- The guarantee the external solver gives for a claimed feasible or
optimal solve: the read-back `x` values are those of an assignment that
satisfies every constraint of the model, and `objective_bound` is a lower
bound on that incumbent's objective value. -/
def SolverSound (m : MipModel) (res : SolveResult) : Prop :=
  (res.status = .OPTIMAL ∨ res.status = .FEASIBLE) →
    ∃ a : Assignment, Satisfies m a ∧
      res.xvals = a.x.map (fun v => (v : Rat)) ∧
      res.objective_bound ≤ (a.x.sum : Rat)

/-- Solution extraction at line 136: the indices `j` with `x[j].x >= 0.5`
(the threshold `0.5` is written `mkRat 1 2`). -/
def chosen_of (num_errors : Nat) (xvals : List Rat) : List Nat :=
  (List.range num_errors).filter (fun j => decide (mkRat 1 2 ≤ xvals.getD j 0))

/-- The returned record.  A `none` field models a key absent from the
returned Python dict (the degenerate and non-success dicts carry no
`lower_bound` key). -/
structure DistanceResult where
  status : Option OptimizationStatus
  distance : Option Nat
  error_indices : Option (List Nat)
  lower_bound : Option Rat
  deriving DecidableEq, Repr

/-- The record returned by both degenerate branches (lines 39 and 117). -/
def degenerateResult : DistanceResult :=
  { status := none, distance := none, error_indices := none, lower_bound := none }

/-- Externally visible side effects of one `mip_circuit_distance` call:
the `Model(...)` construction (line 53) and the `m.optimize()` call
(line 126). -/
inductive Event where
  | modelConstructed
  | optimizeCalled
  deriving DecidableEq, Repr

/-- `mip_circuit_distance` (source lines 4-144), instrumented with the
list of `Event`s the call performs.  Control flow mirrors the source:
parse (line 35, exceptions propagate), the zero-mechanism early return
(lines 38-39), model construction (lines 53-110), the zero-observable
return (lines 113-117), configuration and `optimize()` (lines 122-126),
and result extraction (lines 128-144). -/
def mip_run (solve : Solver) (dem : DetectorErrorModel)
    (time_limit : Option Nat := some 300) :
    Except String (DistanceResult × List Event) :=
  match parse_dem_errors dem with
  | Except.error e => Except.error e
  | Except.ok (ed, _eo, _nd, no) =>
    let num_errors := ed.length
    if num_errors = 0 then
      Except.ok (degenerateResult, [])
    else
      let m := build_model ed _eo _nd no
      if 0 < no then
        let res := solve m (solverConfig time_limit)
        if res.status = .OPTIMAL ∨ res.status = .FEASIBLE then
          let chosen := chosen_of num_errors res.xvals
          Except.ok
            ({ status := some res.status, distance := some chosen.length,
               error_indices := some chosen,
               lower_bound := some res.objective_bound },
             [Event.modelConstructed, Event.optimizeCalled])
        else
          Except.ok
            ({ status := some res.status, distance := none,
               error_indices := none, lower_bound := none },
             [Event.modelConstructed, Event.optimizeCalled])
      else
        Except.ok (degenerateResult, [Event.modelConstructed])

/-- The record `mip_circuit_distance` returns (the events are ghost
instrumentation). -/
def mip_circuit_distance (solve : Solver) (dem : DetectorErrorModel)
    (time_limit : Option Nat := some 300) : Except String DistanceResult :=
  (mip_run solve dem time_limit).map Prod.fst

/-- Decidable equality for `Except` results, so concrete runs can be
checked by `decide`. -/
instance {e a : Type} [DecidableEq e] [DecidableEq a] : DecidableEq (Except e a)
  | Except.error u, Except.error v =>
      if h : u = v then isTrue (by rw [h]) else isFalse (by intro hc; cases hc; exact h rfl)
  | Except.error _, Except.ok _ => isFalse (by intro hc; cases hc)
  | Except.ok _, Except.error _ => isFalse (by intro hc; cases hc)
  | Except.ok u, Except.ok v =>
      if h : u = v then isTrue (by rw [h]) else isFalse (by intro hc; cases hc; exact h rfl)

/-- A DEM with no instructions at all (0 mechanisms, 0 observables). -/
def demEmpty : DetectorErrorModel :=
  { instructions := [], num_detectors := 0, num_observables := 0 }

/-- A DEM whose single error mechanism flips only observable 0. -/
def demOneObs : DetectorErrorModel :=
  { instructions := [.error (mkRat 1 2) [.logicalObservableId 0]]
    num_detectors := 0, num_observables := 1 }

/-- A DEM whose single error mechanism flips only detector 0, with no
observables declared. -/
def demDetOnly : DetectorErrorModel :=
  { instructions := [.error (mkRat 1 2) [.relativeDetectorId 0]]
    num_detectors := 1, num_observables := 0 }

/-- A DEM whose single mechanism flips detector 0 and observable 0; its
integer program is infeasible (the mechanism count would have to be both
even and odd). -/
def demInfeasible : DetectorErrorModel :=
  { instructions := [.error (mkRat 1 2) [.relativeDetectorId 0, .logicalObservableId 0]]
    num_detectors := 1, num_observables := 1 }

/-- A DEM containing a `shift_detectors` instruction. -/
def demShift : DetectorErrorModel :=
  { instructions := [.shift_detectors [1, 0], .error (mkRat 1 2) [.logicalObservableId 0]]
    num_detectors := 0, num_observables := 1 }

/-- A DEM with an irrelevant instruction and one error instruction listing
targets out of order and with a duplicate. -/
def demMixed : DetectorErrorModel :=
  { instructions :=
      [.other "detector",
       .error (mkRat 1 10) [.logicalObservableId 0, .relativeDetectorId 1,
                      .relativeDetectorId 0, .relativeDetectorId 1]]
    num_detectors := 2, num_observables := 1 }

/-- `demMixed` with the probability of its error instruction changed. -/
def demMixedReweighted : DetectorErrorModel :=
  { instructions :=
      [.other "detector",
       .error (mkRat 3 10) [.logicalObservableId 0, .relativeDetectorId 1,
                      .relativeDetectorId 0, .relativeDetectorId 1]]
    num_detectors := 2, num_observables := 1 }

/-- A stub solver engine claiming optimality with `x = [1]` and proven
bound 1 (the exact answer for `demOneObs`). -/
def solveStubOpt : Solver :=
  fun _ _ => { status := .OPTIMAL, xvals := [1], objective_bound := 1 }

/-- A stub solver engine reporting infeasibility (the exact answer for
`demInfeasible`). -/
def solveStubInfeasible : Solver :=
  fun _ _ => { status := .INFEASIBLE, xvals := [], objective_bound := 0 }

/-! ## Parser lemmas -/

theorem sortedDedup_sorted (l : List Nat) :
    (List.insertionSort (· ≤ ·) l.dedup).Sorted (· < ·) := by
  have hsorted : (List.insertionSort (· ≤ ·) l.dedup).Sorted (· ≤ ·) :=
    List.sorted_insertionSort (· ≤ ·) l.dedup
  have hnodup : (List.insertionSort (· ≤ ·) l.dedup).Nodup :=
    (List.perm_insertionSort (· ≤ ·) l.dedup).nodup_iff.mpr (List.nodup_dedup l)
  exact (List.Pairwise.and hsorted hnodup).imp
    (fun h => lt_of_le_of_ne h.1 h.2)

theorem normalizeTargets_fst_sorted (off : Nat) (ts : List DemTarget) :
    (normalizeTargets off ts).1.Sorted (· < ·) :=
  sortedDedup_sorted _

theorem normalizeTargets_snd_sorted (off : Nat) (ts : List DemTarget) :
    (normalizeTargets off ts).2.Sorted (· < ·) :=
  sortedDedup_sorted _

/-- The two incidence lists produced for one error instruction. -/
def mechanismDets (ts : List DemTarget) : List Nat := (normalizeTargets 0 ts).1

/-- The observable list produced for one error instruction. -/
def mechanismObs (ts : List DemTarget) : List Nat := (normalizeTargets 0 ts).2

theorem parse_loop_no_shift (insts : List DemInstruction)
    (h : ∀ inst ∈ insts, isShift inst = false) :
    ∀ acc_d acc_o, parse_dem_errors_loop 0 insts acc_d acc_o =
      Except.ok (acc_d ++ (insts.filterMap errorTargets).map mechanismDets,
                 acc_o ++ (insts.filterMap errorTargets).map mechanismObs) := by
  induction insts with
  | nil => intro acc_d acc_o; simp [parse_dem_errors_loop]
  | cons inst rest ih =>
    intro acc_d acc_o
    have hrest : ∀ i ∈ rest, isShift i = false := fun i hi => h i (List.mem_cons_of_mem _ hi)
    cases inst with
    | shift_detectors ts => exact absurd (h _ (List.mem_cons_self _ _)) (by simp [isShift])
    | error p ts =>
        simp only [parse_dem_errors_loop, ih hrest, List.filterMap_cons, errorTargets,
          List.map_cons, List.append_assoc, List.singleton_append,
          mechanismDets, mechanismObs]
    | other k =>
        simp only [parse_dem_errors_loop, ih hrest, List.filterMap_cons, errorTargets]

theorem parse_no_shift (dem : DetectorErrorModel)
    (h : ∀ inst ∈ dem.instructions, isShift inst = false) :
    parse_dem_errors dem =
      Except.ok ((dem.instructions.filterMap errorTargets).map mechanismDets,
                 (dem.instructions.filterMap errorTargets).map mechanismObs,
                 dem.num_detectors, dem.num_observables) := by
  simp [parse_dem_errors, parse_loop_no_shift dem.instructions h [] []]

theorem parse_loop_shift (insts : List DemInstruction)
    (h : ∃ ts, DemInstruction.shift_detectors ts ∈ insts) :
    ∀ acc_d acc_o, parse_dem_errors_loop 0 insts acc_d acc_o =
      Except.error "DEM parsing for shift_detectors not implemented yet." := by
  induction insts with
  | nil => rcases h with ⟨ts, hts⟩; simp at hts
  | cons inst rest ih =>
    intro acc_d acc_o
    cases inst with
    | shift_detectors ts => simp [parse_dem_errors_loop]
    | error p ts =>
        rcases h with ⟨us, hus⟩
        rcases List.mem_cons.mp hus with heq | hmem
        · exact absurd heq (by simp)
        · exact ih ⟨us, hmem⟩ _ _
    | other k =>
        rcases h with ⟨us, hus⟩
        rcases List.mem_cons.mp hus with heq | hmem
        · exact absurd heq (by simp)
        · exact ih ⟨us, hmem⟩ _ _

theorem parse_shift_error (dem : DetectorErrorModel)
    (h : ∃ ts, DemInstruction.shift_detectors ts ∈ dem.instructions) :
    parse_dem_errors dem =
      Except.error "DEM parsing for shift_detectors not implemented yet." := by
  simp [parse_dem_errors, parse_loop_shift dem.instructions h [] []]

/-- Inversion: a successful parse is exactly the no-shift characterization. -/
theorem parse_ok_inv (dem : DetectorErrorModel)
    (ed eo : List (List Nat)) (nd no : Nat)
    (h : parse_dem_errors dem = Except.ok (ed, eo, nd, no)) :
    ed = (dem.instructions.filterMap errorTargets).map mechanismDets ∧
    eo = (dem.instructions.filterMap errorTargets).map mechanismObs ∧
    nd = dem.num_detectors ∧ no = dem.num_observables := by
  by_cases hs : ∃ ts, DemInstruction.shift_detectors ts ∈ dem.instructions
  · rw [parse_shift_error dem hs] at h; cases h
  · have hns : ∀ inst ∈ dem.instructions, isShift inst = false := by
      intro inst hmem
      cases inst with
      | shift_detectors ts => exact absurd ⟨ts, hmem⟩ hs
      | error p ts => simp [isShift]
      | other k => simp [isShift]
    rw [parse_no_shift dem hns] at h
    injection h with h1
    injection h1 with he h2
    injection h2 with ho h3
    injection h3 with hn hv
    exact ⟨he.symm, ho.symm, hn.symm, hv.symm⟩

theorem parse_ok_lengths (dem : DetectorErrorModel)
    (ed eo : List (List Nat)) (nd no : Nat)
    (h : parse_dem_errors dem = Except.ok (ed, eo, nd, no)) :
    eo.length = ed.length := by
  obtain ⟨h1, h2, -, -⟩ := parse_ok_inv dem ed eo nd no h
  rw [h1, h2, List.length_map, List.length_map]

theorem parse_ok_sorted (dem : DetectorErrorModel)
    (ed eo : List (List Nat)) (nd no : Nat)
    (h : parse_dem_errors dem = Except.ok (ed, eo, nd, no)) :
    (∀ l ∈ ed, l.Sorted (· < ·)) ∧ (∀ l ∈ eo, l.Sorted (· < ·)) := by
  obtain ⟨h1, h2, -, -⟩ := parse_ok_inv dem ed eo nd no h
  subst h1; subst h2
  constructor
  · intro l hl
    obtain ⟨ts, -, hts⟩ := List.mem_map.mp hl
    exact hts ▸ normalizeTargets_fst_sorted 0 ts
  · intro l hl
    obtain ⟨ts, -, hts⟩ := List.mem_map.mp hl
    exact hts ▸ normalizeTargets_snd_sorted 0 ts

theorem parse_ok_nodup (dem : DetectorErrorModel)
    (ed eo : List (List Nat)) (nd no : Nat)
    (h : parse_dem_errors dem = Except.ok (ed, eo, nd, no)) :
    (∀ l ∈ ed, l.Nodup) ∧ (∀ l ∈ eo, l.Nodup) := by
  obtain ⟨h1, h2⟩ := parse_ok_sorted dem ed eo nd no h
  exact ⟨fun l hl => (h1 l hl).nodup, fun l hl => (h2 l hl).nodup⟩

/-! ## List helper lemmas -/

theorem getD_le_sum (x : List Nat) : ∀ j, x.getD j 0 ≤ x.sum := by
  induction x with
  | nil => intro j; simp
  | cons a t ih =>
    intro j
    cases j with
    | zero => simp
    | succ j => simpa [List.getD_cons_succ, List.sum_cons] using
        le_add_of_nonneg_of_le (Nat.zero_le a) (ih j)

theorem sum_pos_getD (x : List Nat) (h : 1 ≤ x.sum) :
    ∃ i, i < x.length ∧ 1 ≤ x.getD i 0 := by
  induction x with
  | nil => simp at h
  | cons a t ih =>
    rcases Nat.eq_zero_or_pos a with ha | ha
    · have ht : 1 ≤ t.sum := by simpa [List.sum_cons, ha] using h
      obtain ⟨i, hi, hv⟩ := ih ht
      exact ⟨i + 1, by simpa using hi, by simpa [List.getD_cons_succ] using hv⟩
    · exact ⟨0, by simp, by simpa using ha⟩

theorem getD_le_one (x : List Nat) (h : ∀ v ∈ x, v ≤ 1) (j : Nat) :
    x.getD j 0 ≤ 1 := by
  induction x generalizing j with
  | nil => simp
  | cons a t ih =>
    cases j with
    | zero => exact h a (by simp)
    | succ j =>
        simpa [List.getD_cons_succ] using
          ih (fun v hv => h v (List.mem_cons_of_mem _ hv)) j

theorem getD_map_rat (x : List Nat) (j : Nat) (h : j < x.length) :
    (x.map (fun v => (v : Rat))).getD j 0 = ((x.getD j 0 : Nat) : Rat) := by
  induction x generalizing j with
  | nil => simp at h
  | cons a t ih =>
    cases j with
    | zero => simp
    | succ j =>
        simp only [List.map_cons, List.getD_cons_succ]
        exact ih j (by simpa using h)

theorem half_le_cast_iff (v : Nat) : (mkRat 1 2 ≤ (v : Rat)) ↔ 1 ≤ v := by
  constructor
  · intro h
    by_contra hv
    have hv0 : v = 0 := by omega
    rw [hv0] at h
    norm_num [show (mkRat 1 2) = 1/2 by norm_num [mkRat]] at h
  · intro h
    have h1 : (1 : Rat) ≤ (v : Rat) := by exact_mod_cast h
    calc mkRat 1 2 ≤ 1 := by norm_num [show (mkRat 1 2) = 1/2 by norm_num [mkRat]]
    _ ≤ (v : Rat) := h1

theorem getD_set_self (l : List Nat) (k v : Nat) (h : k < l.length) :
    (l.set k v).getD k 0 = v := by
  induction l generalizing k with
  | nil => simp at h
  | cons a t ih =>
    cases k with
    | zero => simp
    | succ k =>
        simp only [List.set_cons_succ, List.getD_cons_succ]
        exact ih k (by simpa using h)

theorem getD_set_ne (l : List Nat) (k v j : Nat) (h : j ≠ k) :
    (l.set k v).getD j 0 = l.getD j 0 := by
  induction l generalizing k j with
  | nil => simp
  | cons a t ih =>
    cases k with
    | zero =>
        cases j with
        | zero => exact absurd rfl h
        | succ j => simp
    | succ k =>
        cases j with
        | zero => simp
        | succ j =>
            simp only [List.set_cons_succ, List.getD_cons_succ]
            exact ih k j (by omega)

theorem getD_take (l : List Nat) (n j : Nat) (h : j < n) :
    (l.take n).getD j 0 = l.getD j 0 := by
  induction l generalizing n j with
  | nil => simp
  | cons a t ih =>
    cases n with
    | zero => omega
    | succ n =>
        cases j with
        | zero => simp
        | succ j =>
            simp only [List.take_succ_cons, List.getD_cons_succ]
            exact ih n j (by omega)

theorem sum_set (l : List Nat) (k v : Nat) (h : k < l.length) :
    (l.set k v).sum + l.getD k 0 = l.sum + v := by
  induction l generalizing k with
  | nil => simp at h
  | cons a t ih =>
    cases k with
    | zero => simp [List.sum_cons]; omega
    | succ k =>
        have := ih k (by simpa using h)
        simp only [List.set_cons_succ, List.sum_cons, List.getD_cons_succ]
        omega

theorem drop_length_pred (l : List Nat) (n : Nat) (h : l.length = n + 1) :
    l.drop n = [l.getD n 0] := by
  induction l generalizing n with
  | nil => simp at h
  | cons a t ih =>
    cases n with
    | zero =>
        have : t = [] := List.length_eq_zero.mp (by simpa using h)
        simp [this]
    | succ n =>
        simp only [List.drop_succ_cons, List.getD_cons_succ]
        exact ih n (by simpa using h)

theorem getD_map_range {A : Type} (f : Nat → A) (n i : Nat) (h : i < n) (d : A) :
    ((List.range n).map f).getD i d = f i := by
  rw [List.getD_eq_getElem?_getD, List.getElem?_map, List.getElem?_range h]
  rfl

theorem getD_append_last (l : List (List Nat)) (a : List Nat) :
    (l ++ [a]).getD l.length [] = a := by
  induction l with
  | nil => simp
  | cons b t ih => simp [ih]

/-! ## rowSum lemmas -/

theorem rowSum_nil (x : List Nat) : rowSum x [] = 0 := rfl

theorem rowSum_cons (x : List Nat) (j : Nat) (row : List Nat) :
    rowSum x (j :: row) = x.getD j 0 + rowSum x row := by
  rw [rowSum, List.map_cons, List.sum_cons, rowSum]

theorem rowSum_append (x : List Nat) (r1 r2 : List Nat) :
    rowSum x (r1 ++ r2) = rowSum x r1 + rowSum x r2 := by
  simp [rowSum]

theorem rowSum_congr (x x' : List Nat) (row : List Nat)
    (h : ∀ j ∈ row, x.getD j 0 = x'.getD j 0) :
    rowSum x row = rowSum x' row := by
  unfold rowSum
  exact congrArg List.sum (List.map_congr_left h)

theorem rowSum_le_length (x : List Nat) (row : List Nat)
    (h : ∀ v ∈ x, v ≤ 1) : rowSum x row ≤ row.length := by
  induction row with
  | nil => simp [rowSum_nil]
  | cons j t ih =>
    rw [rowSum_cons, List.length_cons]
    have := getD_le_one x h j
    omega

theorem rowSum_filter_count (x : List Nat) (row : List Nat)
    (h : ∀ v ∈ x, v ≤ 1) :
    rowSum x row = (row.filter (fun j => decide (x.getD j 0 = 1))).length := by
  induction row with
  | nil => simp [rowSum_nil]
  | cons j t ih =>
    rw [rowSum_cons, ih, List.filter_cons]
    rcases Nat.le_one_iff_eq_zero_or_eq_one.mp (getD_le_one x h j) with h0 | h1
    · rw [if_neg (by simp only [decide_eq_true_eq, h0]; decide), h0, Nat.zero_add]
    · rw [if_pos (by simp only [decide_eq_true_eq, h1]), List.length_cons, h1]
      omega

theorem rowSum_pos_exists (x : List Nat) (row : List Nat)
    (h : 1 ≤ rowSum x row) : ∃ j ∈ row, 1 ≤ x.getD j 0 := by
  induction row with
  | nil => simp [rowSum_nil] at h
  | cons j t ih =>
    rw [rowSum_cons] at h
    rcases Nat.eq_zero_or_pos (x.getD j 0) with h0 | h1
    · rw [h0, Nat.zero_add] at h
      obtain ⟨u, hu, hv⟩ := ih h
      exact ⟨u, List.mem_cons_of_mem _ hu, hv⟩
    · exact ⟨j, List.mem_cons_self _ _, h1⟩

theorem count_ones_range (x : List Nat) (h : ∀ v ∈ x, v ≤ 1) :
    ((List.range x.length).filter (fun j => decide (x.getD j 0 = 1))).length
      = x.sum := by
  induction x with
  | nil => simp
  | cons a t ih =>
    have hts : ∀ v ∈ t, v ≤ 1 := fun v hv => h v (List.mem_cons_of_mem _ hv)
    rw [List.length_cons, List.range_succ_eq_map, List.filter_cons]
    have hfm : (List.map Nat.succ (List.range t.length)).filter
          (fun j => decide ((a :: t).getD j 0 = 1))
        = List.map Nat.succ ((List.range t.length).filter
            (fun j => decide (t.getD j 0 = 1))) := by
      rw [List.filter_map]
      have hpt : ((fun j => decide ((a :: t).getD j 0 = 1)) ∘ Nat.succ)
          = (fun j => decide (t.getD j 0 = 1)) := by
        funext m
        simp [List.getD_cons_succ]
      rw [hpt]
    rcases Nat.le_one_iff_eq_zero_or_eq_one.mp (h a (List.mem_cons_self _ _)) with h0 | h1
    · rw [if_neg (by simp only [List.getD_cons_zero, decide_eq_true_eq, h0]; decide),
        hfm, List.length_map, ih hts, List.sum_cons, h0]
      omega
    · rw [if_pos (by simp only [List.getD_cons_zero, decide_eq_true_eq, h1]),
        List.length_cons, hfm, List.length_map, ih hts, List.sum_cons, h1]
      omega

theorem rowSum_set_mem (x : List Nat) (row : List Nat) (k v : Nat)
    (hnod : row.Nodup) (hmem : k ∈ row) (hk : k < x.length) :
    rowSum (x.set k v) row + x.getD k 0 = rowSum x row + v := by
  induction row with
  | nil => simp at hmem
  | cons j t ih =>
    have hnt : t.Nodup := hnod.of_cons
    rcases List.mem_cons.mp hmem with heq | hmemt
    · subst heq
      have hkt : k ∉ t := (List.nodup_cons.mp hnod).1
      have hset : rowSum (x.set k v) t = rowSum x t :=
        rowSum_congr _ _ _ (fun u hu => getD_set_ne x k v u (fun he => hkt (he ▸ hu)))
      rw [rowSum_cons, rowSum_cons, hset, getD_set_self x k v hk]
      omega
    · have hjk : j ≠ k := by
        intro he
        exact (List.nodup_cons.mp hnod).1 (he ▸ hmemt)
      rw [rowSum_cons, rowSum_cons, getD_set_ne x k v j hjk]
      have := ih hnt hmemt
      omega

theorem rowSum_set_not_mem (x : List Nat) (row : List Nat) (k v : Nat)
    (hmem : k ∉ row) : rowSum (x.set k v) row = rowSum x row :=
  rowSum_congr _ _ _ (fun u hu => getD_set_ne x k v u (fun he => hmem (he ▸ hu)))

/-! ## invertIncidence characterization -/

theorem filter_beq_of_nodup (l : List Nat) (i : Nat) (h : l.Nodup) :
    l.filter (· == i) = if i ∈ l then [i] else [] := by
  induction l with
  | nil => simp
  | cons a t ih =>
    have hnt : t.Nodup := h.of_cons
    by_cases hai : a = i
    · subst hai
      have hat : a ∉ t := (List.nodup_cons.mp h).1
      have : t.filter (· == a) = [] := by
        rw [ih hnt]; simp [hat]
      simp [List.filter_cons, this]
    · have : (a :: t).filter (· == i) = t.filter (· == i) := by
        simp [List.filter_cons, hai]
      rw [this, ih hnt]
      refine if_congr ?_ rfl rfl
      simp only [List.mem_cons]
      constructor
      · exact Or.inr
      · rintro (he | ht)
        · exact absurd he.symm hai
        · exact ht

theorem filterMap_if_mem (p : Nat → Prop) [DecidablePred p] (l : List Nat) :
    l.filterMap (fun m => if p m then some m else none)
      = l.filter (fun m => decide (p m)) := by
  induction l with
  | nil => simp
  | cons a t ih =>
    by_cases ha : p a
    · simp [List.filterMap_cons, List.filter_cons, ha, ih]
    · simp [List.filterMap_cons, List.filter_cons, ha, ih]

theorem enumFrom_flatMap_eq (i : Nat) (lists : List (List Nat))
    (h : ∀ l ∈ lists, l.Nodup) :
    ∀ k, (List.enumFrom k lists).flatMap
        (fun p => (p.2.filter (· == i)).map (fun _ => p.1))
      = (List.range lists.length).filterMap
          (fun m => if i ∈ lists.getD m [] then some (k + m) else none) := by
  induction lists with
  | nil => intro k; simp
  | cons l t ih =>
    intro k
    have hlt : ∀ u ∈ t, u.Nodup := fun u hu => h u (List.mem_cons_of_mem _ hu)
    rw [List.enumFrom_cons, List.flatMap_cons,
      filter_beq_of_nodup l i (h l (List.mem_cons_self _ _)),
      ih hlt (k + 1)]
    have hrange : (List.range (l :: t).length).filterMap
          (fun m => if i ∈ (l :: t).getD m [] then some (k + m) else none)
        = ((if i ∈ l then [k] else []) : List Nat) ++
          (List.range t.length).filterMap
            (fun m => if i ∈ t.getD m [] then some (k + 1 + m) else none) := by
      rw [List.length_cons, List.range_succ_eq_map, List.filterMap_cons,
        List.filterMap_map]
      have hcongr : (List.range t.length).filterMap
            ((fun m => if i ∈ (l :: t).getD m [] then some (k + m) else none) ∘
              Nat.succ)
          = (List.range t.length).filterMap
              (fun m => if i ∈ t.getD m [] then some (k + 1 + m) else none) := by
        refine List.filterMap_congr (fun m _ => ?_)
        simp only [Function.comp_apply, List.getD_cons_succ]
        have harith : k + (m + 1) = k + 1 + m := by omega
        rw [harith]
      rw [hcongr]
      by_cases hil : i ∈ l
      · simp [hil, List.getD_cons_zero]
      · simp [hil, List.getD_cons_zero]
    rw [hrange]
    by_cases hil : i ∈ l
    · simp [hil]
    · simp [hil]

theorem invert_length (n : Nat) (lists : List (List Nat)) :
    (invertIncidence n lists).length = n := by
  simp [invertIncidence]

theorem invert_getD (n : Nat) (lists : List (List Nat)) (i : Nat)
    (hi : i < n) (h : ∀ l ∈ lists, l.Nodup) :
    (invertIncidence n lists).getD i []
      = (List.range lists.length).filter (fun j => decide (i ∈ lists.getD j [])) := by
  unfold invertIncidence
  rw [getD_map_range _ n i hi]
  have henum : lists.enum = lists.enumFrom 0 := rfl
  rw [henum, enumFrom_flatMap_eq i lists h 0]
  have : (fun m => if i ∈ lists.getD m [] then some (0 + m) else none)
      = (fun m => if i ∈ lists.getD m [] then some m else none) := by
    funext m
    simp
  rw [this, filterMap_if_mem (fun m => i ∈ lists.getD m []) _]

theorem filter_range_sorted (N : Nat) (p : Nat → Bool) :
    ((List.range N).filter p).Sorted (· < ·) :=
  List.Pairwise.sublist (List.filter_sublist _) (List.pairwise_lt_range N)

theorem mem_filter_range (N : Nat) (p : Nat → Bool) (j : Nat) :
    j ∈ (List.range N).filter p ↔ j < N ∧ p j = true := by
  rw [List.mem_filter, List.mem_range]

theorem invert_append_getD (n : Nat) (lists : List (List Nat)) (a : List Nat)
    (i : Nat) (hi : i < n) (h : ∀ l ∈ lists, l.Nodup) (ha : a.Nodup) :
    (invertIncidence n (lists ++ [a])).getD i []
      = (invertIncidence n lists).getD i []
        ++ (if i ∈ a then [lists.length] else []) := by
  have hall : ∀ l ∈ lists ++ [a], l.Nodup := by
    intro l hl
    rcases List.mem_append.mp hl with hl | hl
    · exact h l hl
    · rw [List.mem_singleton.mp hl]; exact ha
  rw [invert_getD n (lists ++ [a]) i hi hall, invert_getD n lists i hi h,
    List.length_append, List.length_singleton, List.range_succ, List.filter_append]
  congr 1
  · refine List.filter_congr (fun j hj => ?_)
    rw [List.getD_append _ _ _ _ (List.mem_range.mp hj)]
  · rw [List.filter_cons, List.filter_nil, getD_append_last]
    by_cases hia : i ∈ a
    · rw [if_pos (by simp [hia]), if_pos hia]
    · rw [if_neg (by simp [hia]), if_neg hia]

/-- Any satisfying assignment selects at least one mechanism: some parity
bit is 1, hence its observable row is nonempty with odd firing count. -/
theorem satisfies_sum_pos (m : MipModel) (a : Assignment)
    (hsat : Satisfies m a) : 1 ≤ a.x.sum := by
  obtain ⟨-, -, -, hwlen, -, -, -, -, -, hobs, hwsum⟩ := hsat
  obtain ⟨r, hr, hv⟩ := sum_pos_getD a.w hwsum
  rw [hwlen] at hr
  have hrow := hobs r hr
  by_cases hempty : m.obs_rows.getD r [] = []
  · rw [hrow.2 hempty] at hv; omega
  · have hsum := hrow.1 hempty
    have hpos : 1 ≤ rowSum a.x (m.obs_rows.getD r []) := by omega
    obtain ⟨j, -, hj⟩ := rowSum_pos_exists a.x _ hpos
    exact le_trans hj (getD_le_sum a.x j)

/-! ## mip_run control-flow lemmas -/

theorem mip_run_parse_error (solve : Solver) (dem : DetectorErrorModel)
    (tl : Option Nat) (e : String)
    (h : parse_dem_errors dem = Except.error e) :
    mip_run solve dem tl = Except.error e := by
  simp [mip_run, h]

theorem mip_run_no_mech (solve : Solver) (dem : DetectorErrorModel)
    (tl : Option Nat) (eo : List (List Nat)) (nd no : Nat)
    (h : parse_dem_errors dem = Except.ok ([], eo, nd, no)) :
    mip_run solve dem tl = Except.ok (degenerateResult, []) := by
  simp [mip_run, h]

theorem mip_run_no_obs (solve : Solver) (dem : DetectorErrorModel)
    (tl : Option Nat) (ed eo : List (List Nat)) (nd no : Nat)
    (h : parse_dem_errors dem = Except.ok (ed, eo, nd, no))
    (hne : ed ≠ []) (hno : no = 0) :
    mip_run solve dem tl
      = Except.ok (degenerateResult, [Event.modelConstructed]) := by
  have hlen : ed.length ≠ 0 := fun hc => hne (List.length_eq_zero.mp hc)
  simp [mip_run, h, hlen, hno]

theorem mip_run_solved (solve : Solver) (dem : DetectorErrorModel)
    (tl : Option Nat) (ed eo : List (List Nat)) (nd no : Nat)
    (h : parse_dem_errors dem = Except.ok (ed, eo, nd, no))
    (hne : ed ≠ []) (hno : 0 < no)
    (hok : (solve (build_model ed eo nd no) (solverConfig tl)).status
        = OptimizationStatus.OPTIMAL ∨
      (solve (build_model ed eo nd no) (solverConfig tl)).status
        = OptimizationStatus.FEASIBLE) :
    mip_run solve dem tl = Except.ok
      ({ status := some (solve (build_model ed eo nd no) (solverConfig tl)).status,
         distance := some (chosen_of ed.length
           (solve (build_model ed eo nd no) (solverConfig tl)).xvals).length,
         error_indices := some (chosen_of ed.length
           (solve (build_model ed eo nd no) (solverConfig tl)).xvals),
         lower_bound := some
           (solve (build_model ed eo nd no) (solverConfig tl)).objective_bound },
       [Event.modelConstructed, Event.optimizeCalled]) := by
  have hlen : ed.length ≠ 0 := fun hc => hne (List.length_eq_zero.mp hc)
  simp [mip_run, h, hlen, hno, hok]

theorem mip_run_failed (solve : Solver) (dem : DetectorErrorModel)
    (tl : Option Nat) (ed eo : List (List Nat)) (nd no : Nat)
    (h : parse_dem_errors dem = Except.ok (ed, eo, nd, no))
    (hne : ed ≠ []) (hno : 0 < no)
    (hbad : ¬ ((solve (build_model ed eo nd no) (solverConfig tl)).status
        = OptimizationStatus.OPTIMAL ∨
      (solve (build_model ed eo nd no) (solverConfig tl)).status
        = OptimizationStatus.FEASIBLE)) :
    mip_run solve dem tl = Except.ok
      ({ status := some (solve (build_model ed eo nd no) (solverConfig tl)).status,
         distance := none, error_indices := none, lower_bound := none },
       [Event.modelConstructed, Event.optimizeCalled]) := by
  have hlen : ed.length ≠ 0 := fun hc => hne (List.length_eq_zero.mp hc)
  simp [mip_run, h, hlen, hno, hbad]

theorem getD_mem_of_lt (l : List (List Nat)) (k : Nat) (h : k < l.length) :
    l.getD k [] ∈ l := by
  rw [List.getD_eq_getElem l [] h]
  exact List.getElem_mem h

theorem filterMap_filter_isSome {A B : Type} (f : A → Option B) (l : List A) :
    (l.filter (fun a => (f a).isSome)).filterMap f = l.filterMap f := by
  induction l with
  | nil => rfl
  | cons a t ih =>
    by_cases ha : (f a).isSome
    · rw [List.filter_cons, if_pos (by simp [ha]), List.filterMap_cons,
        List.filterMap_cons]
      cases hfa : f a with
      | none => rw [hfa] at ha; simp at ha
      | some b => simp [ih]
    · rw [List.filter_cons, if_neg (by simp [ha]), List.filterMap_cons, ih]
      cases hfa : f a with
      | none => rfl
      | some b => rw [hfa] at ha; simp at ha

theorem parse_loop_sameUpToProb (l1 l2 : List DemInstruction)
    (h : List.Forall₂ SameUpToProb l1 l2) :
    ∀ acc_d acc_o, parse_dem_errors_loop 0 l1 acc_d acc_o
      = parse_dem_errors_loop 0 l2 acc_d acc_o := by
  induction h with
  | nil => intro _ _; rfl
  | @cons a b t1 t2 hab hrest ih =>
    intro acc_d acc_o
    cases a with
    | shift_detectors ts =>
        cases b with
        | shift_detectors ts2 => rfl
        | error p2 ts2 => exact absurd hab (by simp [SameUpToProb])
        | other k2 => exact absurd hab (by simp [SameUpToProb])
    | error p ts =>
        cases b with
        | shift_detectors ts2 => exact absurd hab (by simp [SameUpToProb])
        | error p2 ts2 =>
            have hts : ts = ts2 := hab
            subst hts
            exact ih _ _
        | other k2 => exact absurd hab (by simp [SameUpToProb])
    | other k =>
        cases b with
        | shift_detectors ts2 => exact absurd hab (by simp [SameUpToProb])
        | error p2 ts2 => exact absurd hab (by simp [SameUpToProb])
        | other k2 =>
            have hk : k = k2 := by
              have := hab
              simp only [SameUpToProb] at this
              injection this
            subst hk
            exact ih _ _

theorem chosen_of_eq_ones (n : Nat) (xv : List Rat) (ax : List Nat)
    (hx : xv = ax.map (fun v => (v : Rat))) (hlen : ax.length = n)
    (hbin : ∀ v ∈ ax, v ≤ 1) :
    chosen_of n xv = (List.range n).filter (fun j => decide (ax.getD j 0 = 1)) := by
  unfold chosen_of
  refine List.filter_congr (fun j hj => ?_)
  have hjn : j < n := List.mem_range.mp hj
  rw [hx, getD_map_rat ax j (by omega), decide_eq_decide, half_le_cast_iff]
  have := getD_le_one ax hbin j
  omega

theorem filter_filter_rowSum (ax : List Nat) (n : Nat)
    (hbin : ∀ v ∈ ax, v ≤ 1) (q : Nat → Bool) :
    (((List.range n).filter (fun j => decide (ax.getD j 0 = 1))).filter q).length
      = rowSum ax ((List.range n).filter q) := by
  rw [List.filter_filter, rowSum_filter_count ax _ hbin, List.filter_filter]
  congr 1
  refine List.filter_congr (fun j _ => ?_)
  exact Bool.and_comm _ _

/-- Any feasible assignment of the constructed model, replayed over the
parsed incidence lists: the selected mechanisms hit every detector an even
number of times, and some observable an odd number of times. -/
theorem solution_parity (ed eo : List (List Nat)) (nd no : Nat)
    (hlen : eo.length = ed.length)
    (hedn : ∀ l ∈ ed, l.Nodup) (heon : ∀ l ∈ eo, l.Nodup)
    (a : Assignment) (hsat : Satisfies (build_model ed eo nd no) a) :
    (∀ i < nd, (((List.range ed.length).filter
        (fun j => decide (a.x.getD j 0 = 1))).filter
        (fun j => decide (i ∈ ed.getD j []))).length % 2 = 0) ∧
    ∃ q < no, (((List.range ed.length).filter
        (fun j => decide (a.x.getD j 0 = 1))).filter
        (fun j => decide (q ∈ eo.getD j []))).length % 2 = 1 := by
  obtain ⟨hxlen, hylen, hslen, hwlen, hbin, hby, hbs, hbw, hdet, hobs, hwsum⟩ := hsat
  have hdlen : (build_model ed eo nd no).det_rows.length = nd := invert_length nd ed
  have holen : (build_model ed eo nd no).obs_rows.length = no := invert_length no eo
  constructor
  · intro i hi
    have hrow : (build_model ed eo nd no).det_rows.getD i []
        = (List.range ed.length).filter (fun j => decide (i ∈ ed.getD j [])) :=
      invert_getD nd ed i hi hedn
    rw [filter_filter_rowSum a.x ed.length hbin _, ← hrow]
    by_cases hempty : (build_model ed eo nd no).det_rows.getD i [] = []
    · rw [hempty, rowSum_nil]
    · rw [hdet i (by omega) hempty]
      omega
  · obtain ⟨q, hq, hv⟩ := sum_pos_getD a.w hwsum
    rw [hwlen, holen] at hq
    have hrow : (build_model ed eo nd no).obs_rows.getD q []
        = (List.range eo.length).filter (fun j => decide (q ∈ eo.getD j [])) :=
      invert_getD no eo q hq heon
    refine ⟨q, hq, ?_⟩
    rw [filter_filter_rowSum a.x ed.length hbin _, ← hlen, ← hrow]
    have hpair := hobs q (by omega)
    by_cases hempty : (build_model ed eo nd no).obs_rows.getD q [] = []
    · rw [hpair.2 hempty] at hv; omega
    · have hw1 : a.w.getD q 0 = 1 := by
        have := getD_le_one a.w hbw q
        omega
      rw [hpair.1 hempty, hw1]
      omega

/-- Merging the duplicate mechanism `n` into its original `k` (replacing
`x_k` by `(x_k + x_n) % 2` and dropping `x_n`) changes each constraint
row's firing sum by an even amount. -/
theorem rowSum_dup_combine (u : List Nat) (n k : Nat) (hk : k < n)
    (hulen : u.length = n + 1)
    (lists : List (List Nat)) (hnod : ∀ l ∈ lists, l.Nodup)
    (hllen : lists.length = n) (nd i : Nat) (hi : i < nd) :
    ∃ c, rowSum ((u.take n).set k ((u.getD k 0 + u.getD n 0) % 2))
        ((invertIncidence nd lists).getD i []) + 2 * c
      = rowSum u ((invertIncidence nd (lists ++ [lists.getD k []])).getD i []) := by
  have hdknod : (lists.getD k []).Nodup :=
    hnod _ (getD_mem_of_lt lists k (by omega))
  have hrow1 : (invertIncidence nd lists).getD i []
      = (List.range lists.length).filter (fun j => decide (i ∈ lists.getD j [])) :=
    invert_getD nd lists i hi hnod
  have hrow2 : (invertIncidence nd (lists ++ [lists.getD k []])).getD i []
      = (invertIncidence nd lists).getD i []
        ++ (if i ∈ lists.getD k [] then [lists.length] else []) :=
    invert_append_getD nd lists (lists.getD k []) i hi hnod hdknod
  have hrownod : ((invertIncidence nd lists).getD i []).Nodup := by
    rw [hrow1]
    exact (List.nodup_range lists.length).filter _
  have hrowlt : ∀ j ∈ (invertIncidence nd lists).getD i [], j < n := by
    intro j hj
    rw [hrow1] at hj
    have := (mem_filter_range lists.length _ j).mp hj
    omega
  have htake : ∀ j ∈ (invertIncidence nd lists).getD i [],
      (u.take n).getD j 0 = u.getD j 0 :=
    fun j hj => getD_take u n j (hrowlt j hj)
  have htlen : (u.take n).length = n := by
    rw [List.length_take]
    omega
  by_cases hidk : i ∈ lists.getD k []
  · have hkrow : k ∈ (invertIncidence nd lists).getD i [] := by
      rw [hrow1]
      exact (mem_filter_range lists.length _ k).mpr ⟨by omega, decide_eq_true hidk⟩
    have e1 := rowSum_set_mem (u.take n) ((invertIncidence nd lists).getD i []) k
      ((u.getD k 0 + u.getD n 0) % 2) hrownod hkrow (by omega)
    have e2 : (u.take n).getD k 0 = u.getD k 0 := getD_take u n k hk
    have e3 : rowSum (u.take n) ((invertIncidence nd lists).getD i [])
        = rowSum u ((invertIncidence nd lists).getD i []) :=
      rowSum_congr _ _ _ htake
    have e4 : rowSum u ((invertIncidence nd lists).getD i [] ++ [lists.length])
        = rowSum u ((invertIncidence nd lists).getD i []) + u.getD n 0 := by
      rw [rowSum_append, rowSum_cons, rowSum_nil, hllen]
      omega
    rw [hrow2, if_pos hidk, e4]
    rw [e2, e3] at e1
    exact ⟨(u.getD k 0 + u.getD n 0) / 2, by omega⟩
  · have hkrow : k ∉ (invertIncidence nd lists).getD i [] := by
      rw [hrow1]
      intro hc
      have := (mem_filter_range lists.length _ k).mp hc
      exact hidk (of_decide_eq_true this.2)
    have e1 : rowSum ((u.take n).set k ((u.getD k 0 + u.getD n 0) % 2))
          ((invertIncidence nd lists).getD i [])
        = rowSum (u.take n) ((invertIncidence nd lists).getD i []) :=
      rowSum_set_not_mem _ _ _ _ hkrow
    have e3 : rowSum (u.take n) ((invertIncidence nd lists).getD i [])
        = rowSum u ((invertIncidence nd lists).getD i []) :=
      rowSum_congr _ _ _ htake
    rw [hrow2, if_neg hidk, List.append_nil, e1, e3]
    exact ⟨0, by omega⟩

/-- From any feasible assignment of the model extended with a duplicate of
mechanism `k`, a feasible assignment of the original model with no larger
objective value. -/
theorem duplicate_mechanism_feasible (ed eo : List (List Nat)) (nd no : Nat)
    (hlen : eo.length = ed.length)
    (hedn : ∀ l ∈ ed, l.Nodup) (heon : ∀ l ∈ eo, l.Nodup)
    (k : Nat) (hk : k < ed.length) (a2 : Assignment)
    (hsat2 : Satisfies
      (build_model (ed ++ [ed.getD k []]) (eo ++ [eo.getD k []]) nd no) a2) :
    ∃ a1, Satisfies (build_model ed eo nd no) a1 ∧ a1.x.sum ≤ a2.x.sum := by
  obtain ⟨hxlen, hylen, hslen, hwlen, hbin, hby, hbs, hbw, hdet, hobs, hwsum⟩ := hsat2
  set n := ed.length with hn
  have hulen : a2.x.length = n + 1 := by
    rw [hxlen]
    show (ed ++ [ed.getD k []]).length = n + 1
    rw [List.length_append, List.length_singleton]
  set u := a2.x with hu
  set x1 := (u.take n).set k ((u.getD k 0 + u.getD n 0) % 2) with hx1
  have htlen : (u.take n).length = n := by
    rw [List.length_take]
    omega
  have hx1len : x1.length = n := by
    rw [hx1, List.length_set, htlen]
  have hbin1 : ∀ v ∈ x1, v ≤ 1 := by
    intro v hv
    rcases List.mem_or_eq_of_mem_set hv with hvt | hve
    · exact hbin v (List.mem_of_mem_take hvt)
    · omega
  have hm2obs : (build_model (ed ++ [ed.getD k []])
      (eo ++ [eo.getD k []]) nd no).obs_rows.length = no := invert_length _ _
  have hm2det : (build_model (ed ++ [ed.getD k []])
      (eo ++ [eo.getD k []]) nd no).det_rows.length = nd := invert_length _ _
  have hm1det : (build_model ed eo nd no).det_rows.length = nd := invert_length _ _
  have hm1obs : (build_model ed eo nd no).obs_rows.length = no := invert_length _ _
  have heolen : eo.length = n := hlen
  -- even-difference facts for every detector and observable row
  have hdetc : ∀ i, i < nd → ∃ c,
      rowSum x1 ((build_model ed eo nd no).det_rows.getD i []) + 2 * c
        = rowSum u ((build_model (ed ++ [ed.getD k []])
            (eo ++ [eo.getD k []]) nd no).det_rows.getD i []) :=
    fun i hi => rowSum_dup_combine u n k hk hulen ed hedn rfl nd i hi
  have hobsc : ∀ r, r < no → ∃ c,
      rowSum x1 ((build_model ed eo nd no).obs_rows.getD r []) + 2 * c
        = rowSum u ((build_model (ed ++ [ed.getD k []])
            (eo ++ [eo.getD k []]) nd no).obs_rows.getD r []) :=
    fun r hr => rowSum_dup_combine u n k (by omega) hulen eo heon heolen no r hr
  -- row shapes
  have hdrow : ∀ i, i < nd →
      (build_model (ed ++ [ed.getD k []]) (eo ++ [eo.getD k []]) nd no).det_rows.getD i []
        = (build_model ed eo nd no).det_rows.getD i []
          ++ (if i ∈ ed.getD k [] then [n] else []) := by
    intro i hi
    exact invert_append_getD nd ed (ed.getD k []) i hi hedn
      (hedn _ (getD_mem_of_lt ed k hk))
  have horow : ∀ r, r < no →
      (build_model (ed ++ [ed.getD k []]) (eo ++ [eo.getD k []]) nd no).obs_rows.getD r []
        = (build_model ed eo nd no).obs_rows.getD r []
          ++ (if r ∈ eo.getD k [] then [eo.length] else []) := by
    intro r hr
    exact invert_append_getD no eo (eo.getD k []) r hr heon
      (heon _ (getD_mem_of_lt eo k (by omega)))
  have hrowbound : ∀ i, i < nd →
      rowSum x1 ((build_model ed eo nd no).det_rows.getD i []) ≤ n := by
    intro i hi
    calc rowSum x1 ((build_model ed eo nd no).det_rows.getD i [])
        ≤ ((build_model ed eo nd no).det_rows.getD i []).length :=
          rowSum_le_length x1 _ hbin1
      _ ≤ n := by
          have hchar : (build_model ed eo nd no).det_rows.getD i []
              = (List.range ed.length).filter (fun j => decide (i ∈ ed.getD j [])) :=
            invert_getD nd ed i hi hedn
          rw [hchar]
          calc ((List.range ed.length).filter _).length
              ≤ (List.range ed.length).length := List.length_filter_le _ _
            _ = n := List.length_range ed.length
  have horowbound : ∀ r, r < no →
      rowSum x1 ((build_model ed eo nd no).obs_rows.getD r []) ≤ n := by
    intro r hr
    calc rowSum x1 ((build_model ed eo nd no).obs_rows.getD r [])
        ≤ ((build_model ed eo nd no).obs_rows.getD r []).length :=
          rowSum_le_length x1 _ hbin1
      _ ≤ n := by
          have hchar : (build_model ed eo nd no).obs_rows.getD r []
              = (List.range eo.length).filter (fun j => decide (r ∈ eo.getD j [])) :=
            invert_getD no eo r hr heon
          rw [hchar]
          calc ((List.range eo.length).filter _).length
              ≤ (List.range eo.length).length := List.length_filter_le _ _
            _ = n := by rw [List.length_range, heolen]
  refine ⟨⟨x1,
    (List.range nd).map
      (fun i => rowSum x1 ((build_model ed eo nd no).det_rows.getD i []) / 2),
    (List.range no).map
      (fun r => rowSum x1 ((build_model ed eo nd no).obs_rows.getD r []) / 2),
    a2.w⟩, ?_, ?_⟩
  · refine ⟨hx1len, ?_, ?_, ?_, hbin1, ?_, ?_, hbw, ?_, ?_, hwsum⟩
    · rw [List.length_map, List.length_range, hm1det]
    · rw [List.length_map, List.length_range, hm1obs]
    · rw [hwlen, hm2obs, hm1obs]
    · intro v hv
      obtain ⟨i, hi, hvi⟩ := List.mem_map.mp hv
      have hin : i < nd := List.mem_range.mp hi
      show v ≤ (build_model ed eo nd no).slack_ub
      have : v ≤ n / 2 := by
        rw [← hvi]
        exact Nat.div_le_div_right (hrowbound i hin)
      exact this
    · intro v hv
      obtain ⟨r, hr, hvr⟩ := List.mem_map.mp hv
      have hrn : r < no := List.mem_range.mp hr
      show v ≤ (build_model ed eo nd no).slack_ub
      have : v ≤ n / 2 := by
        rw [← hvr]
        exact Nat.div_le_div_right (horowbound r hrn)
      exact this
    · -- detector parity constraints
      intro i hi hne
      rw [hm1det] at hi
      rw [getD_map_range _ nd i hi]
      show rowSum x1 ((build_model ed eo nd no).det_rows.getD i [])
        = 2 * (rowSum x1 ((build_model ed eo nd no).det_rows.getD i []) / 2)
      obtain ⟨c, hc⟩ := hdetc i hi
      have hne2 : (build_model (ed ++ [ed.getD k []])
          (eo ++ [eo.getD k []]) nd no).det_rows.getD i [] ≠ [] := by
        rw [hdrow i hi]
        intro hcon
        exact hne (List.append_eq_nil.mp hcon).1
      have heven := hdet i (by rw [hm2det]; omega) hne2
      omega
    · -- observable constraints
      intro r hr
      rw [hm1obs] at hr
      constructor
      · intro hne
        rw [getD_map_range _ no r hr]
        show rowSum x1 ((build_model ed eo nd no).obs_rows.getD r [])
          = 2 * (rowSum x1 ((build_model ed eo nd no).obs_rows.getD r []) / 2)
            + a2.w.getD r 0
        obtain ⟨c, hc⟩ := hobsc r hr
        have hne2 : (build_model (ed ++ [ed.getD k []])
            (eo ++ [eo.getD k []]) nd no).obs_rows.getD r [] ≠ [] := by
          rw [horow r hr]
          intro hcon
          exact hne (List.append_eq_nil.mp hcon).1
        have hconstr := (hobs r (by rw [hm2obs]; omega)).1 hne2
        have hwle : a2.w.getD r 0 ≤ 1 := getD_le_one a2.w hbw r
        omega
      · intro hempty
        have hrowchar : (build_model ed eo nd no).obs_rows.getD r []
            = (List.range eo.length).filter (fun j => decide (r ∈ eo.getD j [])) :=
          invert_getD no eo r hr heon
        have hnotk : r ∉ eo.getD k [] := by
          rw [hrowchar] at hempty
          have := List.filter_eq_nil_iff.mp hempty k
            (List.mem_range.mpr (by omega))
          simpa using this
        have hempty2 : (build_model (ed ++ [ed.getD k []])
            (eo ++ [eo.getD k []]) nd no).obs_rows.getD r [] = [] := by
          rw [horow r hr, if_neg hnotk, hempty, List.append_nil]
        exact (hobs r (by rw [hm2obs]; omega)).2 hempty2
  · -- objective does not increase
    have hsplit : u.sum = (u.take n).sum + u.getD n 0 := by
      conv_lhs => rw [← List.take_append_drop n u]
      rw [List.sum_append, drop_length_pred u n hulen]
      rw [List.sum_cons, List.sum_nil]
      omega
    have hset := sum_set (u.take n) k ((u.getD k 0 + u.getD n 0) % 2) (by omega)
    have htk : (u.take n).getD k 0 = u.getD k 0 := getD_take u n k hk
    rw [htk] at hset
    show x1.sum ≤ u.sum
    rw [hx1]
    omega

theorem mcd_of_run (solve : Solver) (dem : DetectorErrorModel) (tl : Option Nat)
    (rec : DistanceResult) (evs : List Event)
    (h : mip_run solve dem tl = Except.ok (rec, evs)) :
    mip_circuit_distance solve dem tl = Except.ok rec := by
  unfold mip_circuit_distance
  rw [h]
  rfl

/-! ## Claims -/

/-- C1: whenever `mip_circuit_distance` returns a result with `distance`
present, `error_indices` is exactly the list of mechanisms whose read-back
variable value is at least 0.5, `distance` equals its cardinality, and
firing exactly those mechanisms flips every detector an even number of
times and at least one observable an odd number of times, parity being
replayed over the parsed incidence lists (assuming the external solver's
guarantee for feasible/optimal statuses, and detector/observable ids below
the DEM's declared totals as `stim` guarantees). -/
theorem mip_distance_solution_valid
    (solve : Solver) (dem : DetectorErrorModel) (tl : Option Nat)
    (ed eo : List (List Nat)) (nd no : Nat)
    (hparse : parse_dem_errors dem = Except.ok (ed, eo, nd, no))
    (hwfd : ∀ l ∈ ed, ∀ v ∈ l, v < nd)
    (hwfo : ∀ l ∈ eo, ∀ v ∈ l, v < no)
    (hsound : SolverSound (build_model ed eo nd no)
      (solve (build_model ed eo nd no) (solverConfig tl)))
    (r : DistanceResult) (hr : mip_circuit_distance solve dem tl = Except.ok r)
    (d : Nat) (hd : r.distance = some d) :
    ∃ idx, r.error_indices = some idx ∧
      idx = chosen_of ed.length
        (solve (build_model ed eo nd no) (solverConfig tl)).xvals ∧
      d = idx.length ∧
      (∀ i < nd,
        (idx.filter (fun j => decide (i ∈ ed.getD j []))).length % 2 = 0) ∧
      ∃ q < no,
        (idx.filter (fun j => decide (q ∈ eo.getD j []))).length % 2 = 1 := by
  by_cases hne : ed = []
  · subst hne
    have hrec := mcd_of_run solve dem tl _ _ (mip_run_no_mech solve dem tl eo nd no hparse)
    rw [hrec] at hr
    injection hr with hr
    rw [← hr] at hd
    simp [degenerateResult] at hd
  by_cases hno0 : no = 0
  · have hrec := mcd_of_run solve dem tl _ _
      (mip_run_no_obs solve dem tl ed eo nd no hparse hne hno0)
    rw [hrec] at hr
    injection hr with hr
    rw [← hr] at hd
    simp [degenerateResult] at hd
  have hno : 0 < no := Nat.pos_of_ne_zero hno0
  by_cases hok : (solve (build_model ed eo nd no) (solverConfig tl)).status
      = OptimizationStatus.OPTIMAL ∨
    (solve (build_model ed eo nd no) (solverConfig tl)).status
      = OptimizationStatus.FEASIBLE
  · have hrec := mcd_of_run solve dem tl _ _
      (mip_run_solved solve dem tl ed eo nd no hparse hne hno hok)
    rw [hrec] at hr
    injection hr with hr
    subst hr
    obtain ⟨a, hsat, hx, hbound⟩ := hsound hok
    have hsatlen : a.x.length = ed.length := hsat.1
    have hbina : ∀ v ∈ a.x, v ≤ 1 := hsat.2.2.2.2.1
    have hchosen : chosen_of ed.length
          (solve (build_model ed eo nd no) (solverConfig tl)).xvals
        = (List.range ed.length).filter (fun j => decide (a.x.getD j 0 = 1)) :=
      chosen_of_eq_ones _ _ _ hx hsatlen hbina
    have hpar := solution_parity ed eo nd no
      (parse_ok_lengths dem ed eo nd no hparse)
      (parse_ok_nodup dem ed eo nd no hparse).1
      (parse_ok_nodup dem ed eo nd no hparse).2 a hsat
    refine ⟨chosen_of ed.length
      (solve (build_model ed eo nd no) (solverConfig tl)).xvals, rfl, rfl, ?_, ?_, ?_⟩
    · injection hd with hd
      exact hd.symm
    · intro i hi
      rw [hchosen]
      exact hpar.1 i hi
    · obtain ⟨q, hq, hodd⟩ := hpar.2
      refine ⟨q, hq, ?_⟩
      rw [hchosen]
      exact hodd
  · have hrec := mcd_of_run solve dem tl _ _
      (mip_run_failed solve dem tl ed eo nd no hparse hne hno hok)
    rw [hrec] at hr
    injection hr with hr
    rw [← hr] at hd
    simp at hd

/-- Witness for C1 at `demOneObs` with a stub optimal solver. -/
theorem mip_distance_solution_valid_witness :
    ∃ idx,
      ({ status := some OptimizationStatus.OPTIMAL, distance := some 1,
         error_indices := some [0], lower_bound := some 1 } :
           DistanceResult).error_indices = some idx ∧
      idx = chosen_of ([[]] : List (List Nat)).length
        (solveStubOpt (build_model [[]] [[0]] 0 1) (solverConfig (some 300))).xvals ∧
      1 = idx.length ∧
      (∀ i < 0,
        (idx.filter
          (fun j => decide (i ∈ ([[]] : List (List Nat)).getD j []))).length % 2 = 0) ∧
      ∃ q < 1,
        (idx.filter
          (fun j => decide (q ∈ ([[0]] : List (List Nat)).getD j []))).length % 2 = 1 := by
  have hsound : SolverSound (build_model [[]] [[0]] 0 1)
      (solveStubOpt (build_model [[]] [[0]] 0 1) (solverConfig (some 300))) :=
    fun _ => ⟨⟨[1], [], [0], [1]⟩, by decide, by decide, by decide⟩
  exact mip_distance_solution_valid solveStubOpt demOneObs (some 300)
    [[]] [[0]] 0 1 (by decide) (by decide) (by decide) hsound
    { status := some OptimizationStatus.OPTIMAL, distance := some 1,
      error_indices := some [0], lower_bound := some 1 }
    (by decide) 1 rfl

/-- C2: a DEM containing a `shift_detectors` instruction makes
`parse_dem_errors` fail with the not-implemented error — no partial result
is produced (the `Except.error` carries nothing else) — and the failure
propagates through `mip_circuit_distance` unchanged. -/
theorem shift_detectors_raises (solve : Solver) (dem : DetectorErrorModel)
    (tl : Option Nat)
    (h : ∃ ts, DemInstruction.shift_detectors ts ∈ dem.instructions) :
    parse_dem_errors dem
      = Except.error "DEM parsing for shift_detectors not implemented yet." ∧
    mip_run solve dem tl
      = Except.error "DEM parsing for shift_detectors not implemented yet." ∧
    mip_circuit_distance solve dem tl
      = Except.error "DEM parsing for shift_detectors not implemented yet." := by
  have hp := parse_shift_error dem h
  have hrun := mip_run_parse_error solve dem tl _ hp
  refine ⟨hp, hrun, ?_⟩
  unfold mip_circuit_distance
  rw [hrun]
  rfl

/-- Witness for C2 at `demShift`. -/
theorem shift_detectors_raises_witness :
    parse_dem_errors demShift
      = Except.error "DEM parsing for shift_detectors not implemented yet." ∧
    mip_run solveStubOpt demShift (some 300)
      = Except.error "DEM parsing for shift_detectors not implemented yet." ∧
    mip_circuit_distance solveStubOpt demShift (some 300)
      = Except.error "DEM parsing for shift_detectors not implemented yet." :=
  shift_detectors_raises solveStubOpt demShift (some 300)
    ⟨[1, 0], by simp [demShift]⟩

/-- C3 counterexample: with one mechanism and zero observables the
degenerate record is returned, but only after the optimization model has
been constructed (the call performs the `Model(...)` side effect), so the
claim "short-circuited before any optimization model is constructed" fails
for the zero-observable branch. -/
theorem degenerate_before_model_counterexample :
    mip_run solveStubOpt demDetOnly (some 300)
      = Except.ok (degenerateResult, [Event.modelConstructed]) ∧
    [Event.modelConstructed] ≠ ([] : List Event) :=
  ⟨by decide, by decide⟩

/-- C3 (amended): both degenerate cases return exactly
`{status := none, distance := none, error_indices := none}` (no
`lower_bound` key); the zero-mechanism case short-circuits before the
model is constructed (no events), while the zero-observable case
short-circuits after model construction but before the solver is invoked
(`modelConstructed` occurred, `optimizeCalled` did not). -/
theorem degenerate_early_exit (solve : Solver) (dem : DetectorErrorModel)
    (tl : Option Nat) (ed eo : List (List Nat)) (nd no : Nat)
    (hparse : parse_dem_errors dem = Except.ok (ed, eo, nd, no)) :
    (ed = [] → mip_run solve dem tl = Except.ok (degenerateResult, [])) ∧
    (ed ≠ [] → no = 0 →
      mip_run solve dem tl
        = Except.ok (degenerateResult, [Event.modelConstructed])) := by
  constructor
  · intro he
    subst he
    exact mip_run_no_mech solve dem tl eo nd no hparse
  · intro hne h0
    exact mip_run_no_obs solve dem tl ed eo nd no hparse hne h0

/-- Witness for C3 at `demEmpty` (zero mechanisms) and `demDetOnly`
(zero observables). -/
theorem degenerate_early_exit_witness :
    mip_run solveStubOpt demEmpty (some 300)
      = Except.ok (degenerateResult, []) ∧
    mip_run solveStubOpt demDetOnly (some 300)
      = Except.ok (degenerateResult, [Event.modelConstructed]) :=
  ⟨(degenerate_early_exit solveStubOpt demEmpty (some 300) [] [] 0 0
      (by decide)).1 rfl,
   (degenerate_early_exit solveStubOpt demDetOnly (some 300) [[0]] [[]] 1 0
      (by decide)).2 (by decide) rfl⟩

/-- C4 counterexample: an actual solve (the `optimize()` call happened)
whose status is `INFEASIBLE` returns a record with no `lower_bound` key,
so "every result record returned from an actual solve contains a
lower_bound field" fails. -/
theorem lower_bound_missing_counterexample :
    mip_run solveStubInfeasible demInfeasible (some 300)
      = Except.ok
          ({ status := some OptimizationStatus.INFEASIBLE, distance := none,
             error_indices := none, lower_bound := none },
           [Event.modelConstructed, Event.optimizeCalled]) := by
  decide

/-- C4 (amended): a result record carries `lower_bound` exactly when its
status is `OPTIMAL` or `FEASIBLE`; in that case `lower_bound` is the
solver's `objective_bound`, `distance` is present, and
`lower_bound ≤ distance` under the solver's bound guarantee. -/
theorem lower_bound_sound (solve : Solver) (dem : DetectorErrorModel)
    (tl : Option Nat) (ed eo : List (List Nat)) (nd no : Nat)
    (hparse : parse_dem_errors dem = Except.ok (ed, eo, nd, no))
    (hne : ed ≠ []) (hno : 0 < no)
    (hsound : SolverSound (build_model ed eo nd no)
      (solve (build_model ed eo nd no) (solverConfig tl)))
    (r : DistanceResult) (hr : mip_circuit_distance solve dem tl = Except.ok r)
    (st : OptimizationStatus) (hst : r.status = some st)
    (hok : st = OptimizationStatus.OPTIMAL ∨ st = OptimizationStatus.FEASIBLE) :
    ∃ b dv, r.lower_bound = some b ∧ r.distance = some dv ∧ b ≤ (dv : Rat) := by
  by_cases hok2 : (solve (build_model ed eo nd no) (solverConfig tl)).status
      = OptimizationStatus.OPTIMAL ∨
    (solve (build_model ed eo nd no) (solverConfig tl)).status
      = OptimizationStatus.FEASIBLE
  · have hrec := mcd_of_run solve dem tl _ _
      (mip_run_solved solve dem tl ed eo nd no hparse hne hno hok2)
    rw [hrec] at hr
    injection hr with hr
    subst hr
    obtain ⟨a, hsat, hx, hbound⟩ := hsound hok2
    have hsatlen : a.x.length = ed.length := hsat.1
    have hbina : ∀ v ∈ a.x, v ≤ 1 := hsat.2.2.2.2.1
    refine ⟨(solve (build_model ed eo nd no) (solverConfig tl)).objective_bound,
      (chosen_of ed.length
        (solve (build_model ed eo nd no) (solverConfig tl)).xvals).length,
      rfl, rfl, ?_⟩
    have hlen : (chosen_of ed.length
        (solve (build_model ed eo nd no) (solverConfig tl)).xvals).length
        = a.x.sum := by
      rw [chosen_of_eq_ones _ _ _ hx hsatlen hbina, ← hsatlen]
      exact count_ones_range a.x hbina
    rw [hlen]
    exact hbound
  · have hrec := mcd_of_run solve dem tl _ _
      (mip_run_failed solve dem tl ed eo nd no hparse hne hno hok2)
    rw [hrec] at hr
    injection hr with hr
    rw [← hr] at hst
    injection hst with hst
    rw [← hst] at hok
    exact absurd hok hok2

/-- Witness for C4 at `demOneObs` with the stub optimal solver. -/
theorem lower_bound_sound_witness :
    ∃ b dv,
      ({ status := some OptimizationStatus.OPTIMAL, distance := some 1,
         error_indices := some [0], lower_bound := some 1 } :
           DistanceResult).lower_bound = some b ∧
      ({ status := some OptimizationStatus.OPTIMAL, distance := some 1,
         error_indices := some [0], lower_bound := some 1 } :
           DistanceResult).distance = some dv ∧
      b ≤ (dv : Rat) := by
  have hsound : SolverSound (build_model [[]] [[0]] 0 1)
      (solveStubOpt (build_model [[]] [[0]] 0 1) (solverConfig (some 300))) :=
    fun _ => ⟨⟨[1], [], [0], [1]⟩, by decide, by decide, by decide⟩
  exact lower_bound_sound solveStubOpt demOneObs (some 300)
    [[]] [[0]] 0 1 (by decide) (by decide) (by decide) hsound
    { status := some OptimizationStatus.OPTIMAL, distance := some 1,
      error_indices := some [0], lower_bound := some 1 }
    (by decide) OptimizationStatus.OPTIMAL rfl (Or.inl rfl)

/-- C5 counterexample: with `time_limit = none` the call still reaches the
solver (the `optimize()` event occurs), but `max_mip_gap` is left unset
(solver default, not 0), refuting "exact optimality is requested for every
invocation that reaches the solver". -/
theorem exact_gap_counterexample :
    mip_run solveStubOpt demOneObs none
      = Except.ok
          ({ status := some OptimizationStatus.OPTIMAL, distance := some 1,
             error_indices := some [0], lower_bound := some 1 },
           [Event.modelConstructed, Event.optimizeCalled]) ∧
    (solverConfig none).max_mip_gap = none ∧
    (solverConfig none).max_mip_gap ≠ some 0 :=
  ⟨by decide, rfl, by decide⟩

/-- C5 (amended): the `time_limit` parameter defaults to 300 seconds; when
it is not `none`, a zero optimality gap and `max_seconds = time_limit` are
written to the solver configuration; when it is `none`, neither attribute
is set (the solver's own defaults apply, in particular no wall-clock
budget). -/
theorem time_limit_config :
    (∀ (solve : Solver) (dem : DetectorErrorModel),
      mip_circuit_distance solve dem = mip_circuit_distance solve dem (some 300)) ∧
    (∀ (solve : Solver) (dem : DetectorErrorModel),
      mip_run solve dem = mip_run solve dem (some 300)) ∧
    (∀ t : Nat, solverConfig (some t)
      = { max_mip_gap := some 0, max_seconds := some t }) ∧
    solverConfig none = { max_mip_gap := none, max_seconds := none } :=
  ⟨fun _ _ => rfl, fun _ _ => rfl, fun _ => rfl, rfl⟩

/-- C6: for shift-free DEMs the parser emits exactly one mechanism per
error instruction, in instruction order (a map over the error
instructions' targets), each detector and observable list sorted and
duplicate-free (strictly increasing); all other instruction kinds are
skipped with no state change (parsing the DEM restricted to its error
instructions gives the same output). -/
theorem parser_order_and_normalization (dem : DetectorErrorModel)
    (h : ∀ inst ∈ dem.instructions, isShift inst = false) :
    parse_dem_errors dem = Except.ok
      ((dem.instructions.filterMap errorTargets).map mechanismDets,
       (dem.instructions.filterMap errorTargets).map mechanismObs,
       dem.num_detectors, dem.num_observables) ∧
    (∀ l ∈ (dem.instructions.filterMap errorTargets).map mechanismDets,
      l.Sorted (· < ·)) ∧
    (∀ l ∈ (dem.instructions.filterMap errorTargets).map mechanismObs,
      l.Sorted (· < ·)) ∧
    parse_dem_errors
      { instructions :=
          dem.instructions.filter (fun inst => (errorTargets inst).isSome),
        num_detectors := dem.num_detectors,
        num_observables := dem.num_observables }
      = parse_dem_errors dem := by
  have hchar := parse_no_shift dem h
  refine ⟨hchar, ?_, ?_, ?_⟩
  · intro l hl
    obtain ⟨ts, -, hts⟩ := List.mem_map.mp hl
    exact hts ▸ normalizeTargets_fst_sorted 0 ts
  · intro l hl
    obtain ⟨ts, -, hts⟩ := List.mem_map.mp hl
    exact hts ▸ normalizeTargets_snd_sorted 0 ts
  · have hfil : ∀ inst ∈
        dem.instructions.filter (fun i2 => (errorTargets i2).isSome),
        isShift inst = false :=
      fun inst hi => h inst (List.mem_of_mem_filter hi)
    rw [parse_no_shift _ hfil, hchar]
    show Except.ok
        (((dem.instructions.filter
            (fun i2 => (errorTargets i2).isSome)).filterMap errorTargets).map
          mechanismDets, _, _, _) = _
    rw [filterMap_filter_isSome errorTargets dem.instructions]

/-- Witness for C6 at `demMixed` (one skipped instruction, one error
instruction whose targets are out of order and contain a duplicate). -/
theorem parser_order_and_normalization_witness :
    parse_dem_errors demMixed = Except.ok
      ((demMixed.instructions.filterMap errorTargets).map mechanismDets,
       (demMixed.instructions.filterMap errorTargets).map mechanismObs,
       demMixed.num_detectors, demMixed.num_observables) ∧
    (∀ l ∈ (demMixed.instructions.filterMap errorTargets).map mechanismDets,
      l.Sorted (· < ·)) ∧
    (∀ l ∈ (demMixed.instructions.filterMap errorTargets).map mechanismObs,
      l.Sorted (· < ·)) ∧
    parse_dem_errors
      { instructions :=
          demMixed.instructions.filter (fun inst => (errorTargets inst).isSome),
        num_detectors := demMixed.num_detectors,
        num_observables := demMixed.num_observables }
      = parse_dem_errors demMixed :=
  parser_order_and_normalization demMixed (by decide)

/-- C7: the model gives every detector and observable slack variable the
upper bound `⌊n/2⌋` (`slack_ub = num_errors / 2`), and the bound is safe:
any 0/1 selection whose detector parities are all even and whose
observable parities include an odd one extends to a full satisfying
assignment whose slack values (half the even part of each touching sum)
all fit under `⌊n/2⌋` — the bound excludes no parity-feasible selection. -/
theorem slack_bound_safe (ed eo : List (List Nat)) (nd no : Nat)
    (hedn : ∀ l ∈ ed, l.Nodup) (heon : ∀ l ∈ eo, l.Nodup)
    (hlen : eo.length = ed.length) (hn : 1 ≤ ed.length)
    (x : List Nat) (hxlen : x.length = ed.length) (hbin : ∀ v ∈ x, v ≤ 1)
    (heven : ∀ i < nd,
      rowSum x ((build_model ed eo nd no).det_rows.getD i []) % 2 = 0)
    (hodd : ∃ r < no,
      rowSum x ((build_model ed eo nd no).obs_rows.getD r []) % 2 = 1) :
    (build_model ed eo nd no).slack_ub = ed.length / 2 ∧
    ∃ y s w, Satisfies (build_model ed eo nd no) ⟨x, y, s, w⟩ ∧
      (∀ v ∈ y, v ≤ ed.length / 2) ∧ (∀ v ∈ s, v ≤ ed.length / 2) := by
  have hm1det : (build_model ed eo nd no).det_rows.length = nd := invert_length _ _
  have hm1obs : (build_model ed eo nd no).obs_rows.length = no := invert_length _ _
  have hrowbound : ∀ i, i < nd →
      rowSum x ((build_model ed eo nd no).det_rows.getD i []) ≤ ed.length := by
    intro i hi
    calc rowSum x ((build_model ed eo nd no).det_rows.getD i [])
        ≤ ((build_model ed eo nd no).det_rows.getD i []).length :=
          rowSum_le_length x _ hbin
      _ ≤ ed.length := by
          have hchar : (build_model ed eo nd no).det_rows.getD i []
              = (List.range ed.length).filter
                  (fun j => decide (i ∈ ed.getD j [])) :=
            invert_getD nd ed i hi hedn
          rw [hchar]
          calc ((List.range ed.length).filter _).length
              ≤ (List.range ed.length).length := List.length_filter_le _ _
            _ = ed.length := List.length_range ed.length
  have horowbound : ∀ r, r < no →
      rowSum x ((build_model ed eo nd no).obs_rows.getD r []) ≤ ed.length := by
    intro r hr
    calc rowSum x ((build_model ed eo nd no).obs_rows.getD r [])
        ≤ ((build_model ed eo nd no).obs_rows.getD r []).length :=
          rowSum_le_length x _ hbin
      _ ≤ ed.length := by
          have hchar : (build_model ed eo nd no).obs_rows.getD r []
              = (List.range eo.length).filter
                  (fun j => decide (r ∈ eo.getD j [])) :=
            invert_getD no eo r hr heon
          rw [hchar]
          calc ((List.range eo.length).filter _).length
              ≤ (List.range eo.length).length := List.length_filter_le _ _
            _ = ed.length := by rw [List.length_range, hlen]
  refine ⟨rfl,
    (List.range nd).map
      (fun i => rowSum x ((build_model ed eo nd no).det_rows.getD i []) / 2),
    (List.range no).map
      (fun r => rowSum x ((build_model ed eo nd no).obs_rows.getD r []) / 2),
    (List.range no).map
      (fun r => rowSum x ((build_model ed eo nd no).obs_rows.getD r []) % 2),
    ⟨hxlen, ?_, ?_, ?_, hbin, ?_, ?_, ?_, ?_, ?_, ?_⟩, ?_, ?_⟩
  · rw [List.length_map, List.length_range, hm1det]
  · rw [List.length_map, List.length_range, hm1obs]
  · rw [List.length_map, List.length_range, hm1obs]
  · intro v hv
    obtain ⟨i, hi, hvi⟩ := List.mem_map.mp hv
    have hin : i < nd := List.mem_range.mp hi
    show v ≤ ed.length / 2
    rw [← hvi]
    exact Nat.div_le_div_right (hrowbound i hin)
  · intro v hv
    obtain ⟨r, hr, hvr⟩ := List.mem_map.mp hv
    have hrn : r < no := List.mem_range.mp hr
    show v ≤ ed.length / 2
    rw [← hvr]
    exact Nat.div_le_div_right (horowbound r hrn)
  · intro v hv
    obtain ⟨r, hr, hvr⟩ := List.mem_map.mp hv
    omega
  · intro i hi hne
    rw [hm1det] at hi
    rw [getD_map_range _ nd i hi]
    show rowSum x ((build_model ed eo nd no).det_rows.getD i [])
      = 2 * (rowSum x ((build_model ed eo nd no).det_rows.getD i []) / 2)
    have := heven i hi
    omega
  · intro r hr
    rw [hm1obs] at hr
    constructor
    · intro hne
      rw [getD_map_range _ no r hr, getD_map_range _ no r hr]
      show rowSum x ((build_model ed eo nd no).obs_rows.getD r [])
        = 2 * (rowSum x ((build_model ed eo nd no).obs_rows.getD r []) / 2)
          + rowSum x ((build_model ed eo nd no).obs_rows.getD r []) % 2
      omega
    · intro hempty
      rw [getD_map_range _ no r hr, hempty, rowSum_nil]
  · obtain ⟨r0, hr0, hodd0⟩ := hodd
    have hget : ((List.range no).map
        (fun r => rowSum x ((build_model ed eo nd no).obs_rows.getD r []) % 2)).getD
          r0 0
        = rowSum x ((build_model ed eo nd no).obs_rows.getD r0 []) % 2 :=
      getD_map_range _ no r0 hr0 0
    calc 1 = rowSum x ((build_model ed eo nd no).obs_rows.getD r0 []) % 2 :=
          hodd0.symm
      _ = _ := hget.symm
      _ ≤ _ := getD_le_sum _ r0
  · intro v hv
    obtain ⟨i, hi, hvi⟩ := List.mem_map.mp hv
    rw [← hvi]
    exact Nat.div_le_div_right (hrowbound i (List.mem_range.mp hi))
  · intro v hv
    obtain ⟨r, hr, hvr⟩ := List.mem_map.mp hv
    rw [← hvr]
    exact Nat.div_le_div_right (horowbound r (List.mem_range.mp hr))

/-- Witness for C7 at the one-mechanism, one-observable incidence data. -/
theorem slack_bound_safe_witness :
    (build_model [[]] [[0]] 0 1).slack_ub = ([[]] : List (List Nat)).length / 2 ∧
    ∃ y s w, Satisfies (build_model [[]] [[0]] 0 1) ⟨[1], y, s, w⟩ ∧
      (∀ v ∈ y, v ≤ ([[]] : List (List Nat)).length / 2) ∧
      (∀ v ∈ s, v ≤ ([[]] : List (List Nat)).length / 2) :=
  slack_bound_safe [[]] [[0]] 0 1 (by decide) (by decide) (by decide) (by decide)
    [1] (by decide) (by decide) (by decide) (by decide)

/-- C8: appending an extra mechanism whose detector and observable
footprint duplicates mechanism `k` never decreases the optimal objective
value of the constructed integer program. -/
theorem duplicate_mechanism_monotone (ed eo : List (List Nat)) (nd no : Nat)
    (hlen : eo.length = ed.length)
    (hedn : ∀ l ∈ ed, l.Nodup) (heon : ∀ l ∈ eo, l.Nodup)
    (k : Nat) (hk : k < ed.length) (v1 v2 : Nat)
    (h1 : IsOptimal (build_model ed eo nd no) v1)
    (h2 : IsOptimal
      (build_model (ed ++ [ed.getD k []]) (eo ++ [eo.getD k []]) nd no) v2) :
    v1 ≤ v2 := by
  obtain ⟨⟨a2, hsat2, hval⟩, -⟩ := h2
  obtain ⟨a1, hsat1, hle⟩ :=
    duplicate_mechanism_feasible ed eo nd no hlen hedn heon k hk a2 hsat2
  have hmin := h1.2 a1 hsat1
  omega

/-- Witness for C8: duplicating the single mechanism of the
one-observable model keeps the optimum at 1. -/
theorem duplicate_mechanism_monotone_witness :
    IsOptimal (build_model [[]] [[0]] 0 1) 1 ∧
    IsOptimal (build_model [[], []] [[0], [0]] 0 1) 1 ∧
    (1 : Nat) ≤ 1 := by
  have hopt1 : IsOptimal (build_model [[]] [[0]] 0 1) 1 :=
    ⟨⟨⟨[1], [], [0], [1]⟩, by decide, rfl⟩,
     fun a hs => satisfies_sum_pos _ a hs⟩
  have hopt2 : IsOptimal (build_model [[], []] [[0], [0]] 0 1) 1 :=
    ⟨⟨⟨[1, 0], [], [0], [1]⟩, by decide, rfl⟩,
     fun a hs => satisfies_sum_pos _ a hs⟩
  exact ⟨hopt1, hopt2,
    duplicate_mechanism_monotone [[]] [[0]] 0 1 (by decide) (by decide)
      (by decide) 0 (by decide) 1 1 hopt1 hopt2⟩

/-- C9: two DEMs identical except for the probabilities attached to their
error instructions parse to identical outputs, so the same integer
program is constructed from them. -/
theorem parse_ignores_probabilities (dem1 dem2 : DetectorErrorModel)
    (hinst : List.Forall₂ SameUpToProb dem1.instructions dem2.instructions)
    (hd : dem1.num_detectors = dem2.num_detectors)
    (ho : dem1.num_observables = dem2.num_observables) :
    parse_dem_errors dem1 = parse_dem_errors dem2 := by
  unfold parse_dem_errors
  rw [parse_loop_sameUpToProb _ _ hinst [] [], hd, ho]

/-- Witness for C9 at `demMixed` and its reweighted copy. -/
theorem parse_ignores_probabilities_witness :
    parse_dem_errors demMixed = parse_dem_errors demMixedReweighted :=
  parse_ignores_probabilities demMixed demMixedReweighted
    (List.Forall₂.cons (by simp [SameUpToProb, demMixed, demMixedReweighted])
      (List.Forall₂.cons (by simp [SameUpToProb, demMixed, demMixedReweighted])
        List.Forall₂.nil))
    rfl rfl

/-- C10: a non-`none` `error_indices` list is strictly increasing (hence
duplicate-free) and every index is below the number of parsed
mechanisms. -/
theorem error_indices_sorted_bounded (solve : Solver)
    (dem : DetectorErrorModel) (tl : Option Nat)
    (ed eo : List (List Nat)) (nd no : Nat)
    (hparse : parse_dem_errors dem = Except.ok (ed, eo, nd, no))
    (r : DistanceResult) (hr : mip_circuit_distance solve dem tl = Except.ok r)
    (l : List Nat) (hl : r.error_indices = some l) :
    l.Sorted (· < ·) ∧ ∀ j ∈ l, j < ed.length := by
  by_cases hne : ed = []
  · subst hne
    have hrec := mcd_of_run solve dem tl _ _
      (mip_run_no_mech solve dem tl eo nd no hparse)
    rw [hrec] at hr
    injection hr with hr
    rw [← hr] at hl
    simp [degenerateResult] at hl
  by_cases hno0 : no = 0
  · have hrec := mcd_of_run solve dem tl _ _
      (mip_run_no_obs solve dem tl ed eo nd no hparse hne hno0)
    rw [hrec] at hr
    injection hr with hr
    rw [← hr] at hl
    simp [degenerateResult] at hl
  have hno : 0 < no := Nat.pos_of_ne_zero hno0
  by_cases hok : (solve (build_model ed eo nd no) (solverConfig tl)).status
      = OptimizationStatus.OPTIMAL ∨
    (solve (build_model ed eo nd no) (solverConfig tl)).status
      = OptimizationStatus.FEASIBLE
  · have hrec := mcd_of_run solve dem tl _ _
      (mip_run_solved solve dem tl ed eo nd no hparse hne hno hok)
    rw [hrec] at hr
    injection hr with hr
    rw [← hr] at hl
    injection hl with hl
    rw [← hl]
    constructor
    · exact filter_range_sorted ed.length _
    · intro j hj
      exact List.mem_range.mp (List.mem_of_mem_filter hj)
  · have hrec := mcd_of_run solve dem tl _ _
      (mip_run_failed solve dem tl ed eo nd no hparse hne hno hok)
    rw [hrec] at hr
    injection hr with hr
    rw [← hr] at hl
    simp at hl

/-- Witness for C10 at `demOneObs` with the stub optimal solver. -/
theorem error_indices_sorted_bounded_witness :
    ([0] : List Nat).Sorted (· < ·) ∧
    ∀ j ∈ ([0] : List Nat), j < ([[]] : List (List Nat)).length :=
  error_indices_sorted_bounded solveStubOpt demOneObs (some 300)
    [[]] [[0]] 0 1 (by decide)
    { status := some OptimizationStatus.OPTIMAL, distance := some 1,
      error_indices := some [0], lower_bound := some 1 }
    (by decide) [0] rfl
